import Mathlib

/-!
Verification development for the 1-DoF vertical rocket simulator
(`src/simulator.py`).  The numeric model of the program is embedded over `ℚ`
(exact arithmetic standing for the source's real-number formulas); every
definition below is a direct transcription of the corresponding Python code.
-/

namespace RocketSim

/-- Absolute tolerance `1e-12` used throughout `simulator.py`. -/
def eps : ℚ := 1 / 10 ^ 12

/-- Linear interpolation over a table of `(time, value)` pairs, as `np.interp`
computes it: clamp to the first value at or before the first sample, otherwise
find the bracketing pair and blend linearly.  In `mdot_piecewise_linear` it is
only reached with the query strictly inside the support span. -/
def npInterp (x : ℚ) : List (ℚ × ℚ) → ℚ
  | [] => 0
  | [p] => p.2
  | p :: q :: rest =>
    if x ≤ p.1 then p.2
    else if x ≤ q.1 then p.2 + (x - p.1) * (q.2 - p.2) / (q.1 - p.1)
    else npInterp x (q :: rest)

/-- Function `mdot_piecewise_linear(t, t_curve, md_curve)` from `src/simulator.py`:
zero for a degenerate curve (fewer than two samples); at or beyond the ends,
the exact tabulated end value when within `eps` of the end time and zero
otherwise; strictly inside the span, `np.interp` linear interpolation.
The curve is one list of `(time, rate)` pairs (the source keeps two equal
length arrays). -/
def mdot_piecewise_linear (t : ℚ) (curve : List (ℚ × ℚ)) : ℚ :=
  if curve.length < 2 then 0
  else
    let p0 := curve.headD (0, 0)
    let pl := curve.getLastD (0, 0)
    if t ≤ p0.1 ∨ pl.1 ≤ t then
      if |t - p0.1| < eps then p0.2
      else if |t - pl.1| < eps then pl.2
      else 0
    else npInterp t curve

/-- Configuration of `simulate(...)` (physical parameters and the motor
curve; the plotting/IO arguments carry no physics and are not modelled). -/
structure Config where
  dt : ℚ
  tmax : ℚ
  g : ℚ
  rho : ℚ
  Cd : ℚ
  A : ℚ
  m_dry : ℚ
  m_prop : ℚ
  ue : ℚ
  curve : List (ℚ × ℚ)
deriving Repr

/-- One stored row of the state arrays `t, h, V, m, a, Th, D, W`. -/
structure Row where
  t : ℚ
  h : ℚ
  V : ℚ
  m : ℚ
  a : ℚ
  Th : ℚ
  D : ℚ
  W : ℚ
deriving Repr

/-- The event records (`None` until detected): MECO `(t, h, V)`,
apogee `(t, h)`, touchdown `t`. -/
structure Events where
  meco : Option (ℚ × ℚ × ℚ) := none
  apo : Option (ℚ × ℚ) := none
  td : Option ℚ := none
deriving Repr, DecidableEq

/-- Step 1 of the loop body: mass-flow at the current time, forced to `0`
once the current mass is within `eps` of the dry mass. -/
def mdotAt (cfg : Config) (cur : Row) : ℚ :=
  if cur.m ≤ cfg.m_dry + eps then 0 else mdot_piecewise_linear cur.t cfg.curve

/-- Step 2: thrust `Th[i] = mdot * ue`. -/
def thrustAt (cfg : Config) (cur : Row) : ℚ := mdotAt cfg cur * cfg.ue

/-- Step 2: drag `D[i] = 0.5 * rho * V * |V| * Cd * A`. -/
def dragAt (cfg : Config) (cur : Row) : ℚ :=
  1 / 2 * cfg.rho * cur.V * |cur.V| * cfg.Cd * cfg.A

/-- Step 2: weight `W[i] = m * g`. -/
def weightAt (cfg : Config) (cur : Row) : ℚ := cur.m * cfg.g

/-- The source's `sgnV = 1.0 if abs(V) < 1e-12 else V / abs(V)`. -/
def sgnV (v : ℚ) : ℚ := if |v| < eps then 1 else v / |v|

/-- Step 3: the acceleration before the ground guard,
`a[i] = -g - D[i]/m[i] + sgnV * Th[i]/m[i]`. -/
def accel0 (cfg : Config) (cur : Row) : ℚ :=
  -cfg.g - dragAt cfg cur / cur.m + sgnV cur.V * thrustAt cfg cur / cur.m

/-- Step 4 guard condition: `h ≤ 0 + 1e-12`, `V ≤ 0 + 1e-12` and
`netF = Th - D - W ≤ 0`. -/
def groundedAt (cfg : Config) (cur : Row) : Prop :=
  cur.h ≤ 0 + eps ∧ cur.V ≤ 0 + eps ∧
    thrustAt cfg cur - dragAt cfg cur - weightAt cfg cur ≤ 0

instance (cfg : Config) (cur : Row) : Decidable (groundedAt cfg cur) :=
  inferInstanceAs (Decidable (_ ∧ _ ∧ _))

/-- The acceleration stored for the step (`0` in the grounded branch). -/
def accelAt (cfg : Config) (cur : Row) : ℚ :=
  if groundedAt cfg cur then 0 else accel0 cfg cur

/-- Value `h_new`: `0` in the grounded branch, else the Euler step `h + V*dt`. -/
def hNew (cfg : Config) (cur : Row) : ℚ :=
  if groundedAt cfg cur then 0 else cur.h + cur.V * cfg.dt

/-- Value `V_new`: `0` in the grounded branch, else the Euler step `V + a*dt`. -/
def vNew (cfg : Config) (cur : Row) : ℚ :=
  if groundedAt cfg cur then 0 else cur.V + accel0 cfg cur * cfg.dt

/-- Step 5: `m_new = m - mdot*dt` (not yet clamped to the dry mass). -/
def mNew (cfg : Config) (cur : Row) : ℚ := cur.m - mdotAt cfg cur * cfg.dt

/-- Theta of the burnout-by-mass event:
`(m - m_dry) / ((m - m_new) + 1e-12)`. -/
def thetaMeco (cfg : Config) (cur : Row) : ℚ :=
  (cur.m - cfg.m_dry) / ((cur.m - mNew cfg cur) + eps)

/-- The `(t_MECO, h_MECO, V_MECO)` triple recorded by the mass-crossing
burnout rule. -/
def mecoMassRec (cfg : Config) (cur : Row) : ℚ × ℚ × ℚ :=
  (cur.t + thetaMeco cfg cur * cfg.dt,
   cur.h + thetaMeco cfg cur * (hNew cfg cur - cur.h),
   cur.V + thetaMeco cfg cur * (vNew cfg cur - cur.V))

/-- Event (a): MECO by mass crossing. -/
def evA (cfg : Config) (cur : Row) (ev : Events) : Events :=
  if ev.meco = none ∧ cfg.m_dry + eps < cur.m ∧ mNew cfg cur ≤ cfg.m_dry + eps
  then { ev with meco := some (mecoMassRec cfg cur) }
  else ev

/-- Event (b): MECO by end of the mass-flow curve (no fractional refinement;
the new-state values are recorded directly). -/
def evB (cfg : Config) (cur : Row) (ev : Events) : Events :=
  if ev.meco = none ∧ eps < mdotAt cfg cur ∧
      mdot_piecewise_linear (cur.t + cfg.dt) cfg.curve ≤ eps
  then { ev with meco := some (cur.t + cfg.dt, hNew cfg cur, vNew cfg cur) }
  else ev

/-- Theta of the apogee event: `V / (V - V_new + 1e-12)`. -/
def thetaApo (cfg : Config) (cur : Row) : ℚ :=
  cur.V / (cur.V - vNew cfg cur + eps)

/-- The `(t_apo, h_apo)` pair recorded by the apogee rule. -/
def apoRec (cfg : Config) (cur : Row) : ℚ × ℚ :=
  (cur.t + thetaApo cfg cur * cfg.dt,
   cur.h + thetaApo cfg cur * (hNew cfg cur - cur.h))

/-- Event (c): apogee by downward zero crossing of the velocity. -/
def evC (cfg : Config) (cur : Row) (ev : Events) : Events :=
  if ev.apo = none ∧ 0 < cur.V ∧ vNew cfg cur ≤ 0 then
    { ev with apo := some (apoRec cfg cur) }
  else ev

/-- Touchdown trigger, evaluated on the events as they stand after (a)–(c). -/
def tdTrigger (cfg : Config) (cur : Row) (ev : Events) : Prop :=
  ev.td = none ∧ 0 < cur.h ∧ hNew cfg cur ≤ 0

instance (cfg : Config) (cur : Row) (ev : Events) :
    Decidable (tdTrigger cfg cur ev) :=
  inferInstanceAs (Decidable (_ ∧ _ ∧ _))

/-- Theta of the touchdown event: `h / (h - h_new + 1e-12)`. -/
def thetaTd (cfg : Config) (cur : Row) : ℚ :=
  cur.h / (cur.h - hNew cfg cur + eps)

/-- Event (d): touchdown by downward zero crossing of the altitude. -/
def evD (cfg : Config) (cur : Row) (ev : Events) : Events :=
  if tdTrigger cfg cur ev then
    { ev with td := some (cur.t + thetaTd cfg cur * cfg.dt) }
  else ev

/-- All four event checks of one loop iteration, in source order. -/
def stepEvents (cfg : Config) (cur : Row) (ev : Events) : Events :=
  evD cfg cur (evC cfg cur (evB cfg cur (evA cfg cur ev)))

/-- The altitude written for the next row: forced to exactly `0` when the
touchdown trigger fires this step, else `h_new`. -/
def hOut (cfg : Config) (cur : Row) (ev : Events) : ℚ :=
  if tdTrigger cfg cur (evC cfg cur (evB cfg cur (evA cfg cur ev))) then 0
  else hNew cfg cur

/-- Row `i` as finalized by iteration `i`: its forces and acceleration are
written in place; `t, h, V, m` were already set when the row was produced. -/
def finRow (cfg : Config) (cur : Row) : Row :=
  { cur with
    a := accelAt cfg cur
    Th := thrustAt cfg cur
    D := dragAt cfg cur
    W := weightAt cfg cur }

/-- Row `i+1` as written by iteration `i`: advanced kinematics and mass
(clamped to the dry mass), forces copied from row `i`. -/
def nextRow (cfg : Config) (cur : Row) (ev : Events) : Row :=
  { t := cur.t + cfg.dt
    h := hOut cfg cur ev
    V := vNew cfg cur
    m := max (mNew cfg cur) cfg.m_dry
    a := accelAt cfg cur
    Th := thrustAt cfg cur
    D := dragAt cfg cur
    W := weightAt cfg cur }

/-- The main integration loop (`for i in range(n-1)` with `break` once
touchdown is recorded), returning the written rows and the event state. -/
def loop (cfg : Config) : Nat → Row → Events → List Row × Events
  | 0, cur, ev => ([cur], ev)
  | fuel + 1, cur, ev =>
    let ev2 := stepEvents cfg cur ev
    if ev2.td.isSome then ([finRow cfg cur, nextRow cfg cur ev], ev2)
    else
      let r := loop cfg fuel (nextRow cfg cur ev) ev2
      (finRow cfg cur :: r.1, r.2)

/-- Array capacity `n = int(math.ceil(tmax / dt)) + 2`. -/
def nSteps (cfg : Config) : Nat := (⌈cfg.tmax / cfg.dt⌉).toNat + 2

/-- Initial conditions: `t=0, h=0, V=0, m = m_dry + m_prop` (and the arrays
are zero-initialized). -/
def initRow (cfg : Config) : Row :=
  { t := 0, h := 0, V := 0, m := cfg.m_dry + cfg.m_prop,
    a := 0, Th := 0, D := 0, W := 0 }

/-- The run: the loop over `range(n-1)` from the initial conditions with no
event yet recorded. -/
def simulateRun (cfg : Config) : List Row × Events :=
  loop cfg (nSteps cfg - 1) (initRow cfg) {}

/-- The rows written by the run (the populated prefix of the arrays). -/
def simulateRows (cfg : Config) : List Row := (simulateRun cfg).1

/-- The event state after the run. -/
def simEvents (cfg : Config) : Events := (simulateRun cfg).2

/-- Greatest index whose time entry is strictly positive
(`np.max(np.where(t > 0.0))`), as an `Option`. -/
def lastPosAux : List Row → Nat → Option Nat
  | [], _ => none
  | r :: rs, i =>
    match lastPosAux rs (i + 1) with
    | some j => some j
    | none => if 0 < r.t then some i else none

/-- The source's `last = np.max(np.where(t > 0.0)) if np.any(t > 0.0) else 0`. -/
def lastPos (rows : List Row) : Nat := (lastPosAux rows 0).getD 0

/-- Trimming: every series is cut to `[: last + 1]`. -/
def trimRows (rows : List Row) : List Row := rows.take (lastPos rows + 1)

/-- The metrics record assembled at the end of `simulate`. -/
structure Metrics where
  meco : Option (ℚ × ℚ × ℚ)
  apo : Option (ℚ × ℚ)
  td : Option ℚ
  h_max : Option ℚ
  V_max : Option ℚ
  a_max : Option ℚ
  t_end : Option ℚ
deriving Repr

/-- Function `simulate(...)`: run, trim, and package the metrics (maxima over the
trimmed series, `t_end = t[-1]`; `None` maxima only for an empty series). -/
def simulate (cfg : Config) : Metrics :=
  let rows := trimRows (simulateRows cfg)
  let ev := simEvents cfg
  { meco := ev.meco
    apo := ev.apo
    td := ev.td
    h_max := (rows.map Row.h).max?
    V_max := (rows.map Row.V).max?
    a_max := (rows.map Row.a).max?
    t_end := (rows.getLast?).map Row.t }

/-! ## General helper lemmas -/

theorem eps_pos : 0 < eps := by norm_num [eps]

theorem loop_zero (cfg : Config) (cur : Row) (ev : Events) :
    loop cfg 0 cur ev = ([cur], ev) := rfl

theorem loop_succ (cfg : Config) (fuel : Nat) (cur : Row) (ev : Events) :
    loop cfg (fuel + 1) cur ev =
      if (stepEvents cfg cur ev).td.isSome then
        ([finRow cfg cur, nextRow cfg cur ev], stepEvents cfg cur ev)
      else
        (finRow cfg cur ::
            (loop cfg fuel (nextRow cfg cur ev) (stepEvents cfg cur ev)).1,
          (loop cfg fuel (nextRow cfg cur ev) (stepEvents cfg cur ev)).2) := rfl

theorem evA_apo (cfg : Config) (cur : Row) (ev : Events) :
    (evA cfg cur ev).apo = ev.apo := by
  unfold evA; split <;> rfl

theorem evB_apo (cfg : Config) (cur : Row) (ev : Events) :
    (evB cfg cur ev).apo = ev.apo := by
  unfold evB; split <;> rfl

theorem evD_apo (cfg : Config) (cur : Row) (ev : Events) :
    (evD cfg cur ev).apo = ev.apo := by
  unfold evD; split <;> rfl

theorem evA_td (cfg : Config) (cur : Row) (ev : Events) :
    (evA cfg cur ev).td = ev.td := by
  unfold evA; split <;> rfl

theorem evB_td (cfg : Config) (cur : Row) (ev : Events) :
    (evB cfg cur ev).td = ev.td := by
  unfold evB; split <;> rfl

theorem evC_td (cfg : Config) (cur : Row) (ev : Events) :
    (evC cfg cur ev).td = ev.td := by
  unfold evC; split <;> rfl

theorem evC_meco (cfg : Config) (cur : Row) (ev : Events) :
    (evC cfg cur ev).meco = ev.meco := by
  unfold evC; split <;> rfl

theorem evD_meco (cfg : Config) (cur : Row) (ev : Events) :
    (evD cfg cur ev).meco = ev.meco := by
  unfold evD; split <;> rfl

theorem evA_meco_of_some (cfg : Config) (cur : Row) (ev : Events)
    (x : ℚ × ℚ × ℚ) (h : ev.meco = some x) : (evA cfg cur ev).meco = some x := by
  simp [evA, h]

theorem evB_meco_of_some (cfg : Config) (cur : Row) (ev : Events)
    (x : ℚ × ℚ × ℚ) (h : ev.meco = some x) : (evB cfg cur ev).meco = some x := by
  simp [evB, h]

theorem evC_apo_of_some (cfg : Config) (cur : Row) (ev : Events)
    (x : ℚ × ℚ) (h : ev.apo = some x) : (evC cfg cur ev).apo = some x := by
  simp [evC, h]

theorem evD_td_of_some (cfg : Config) (cur : Row) (ev : Events)
    (x : ℚ) (h : ev.td = some x) : (evD cfg cur ev).td = some x := by
  simp [evD, tdTrigger, h]

/-- A nonempty list keeps a populated `max?`. -/
theorem max?_isSome_of_ne_nil (l : List ℚ) (h : l ≠ []) : l.max?.isSome := by
  cases l with
  | nil => exact absurd rfl h
  | cons a t => rfl

/-- The loop never produces an empty list of rows. -/
theorem loop_ne_nil (cfg : Config) (fuel : Nat) (cur : Row) (ev : Events) :
    (loop cfg fuel cur ev).1 ≠ [] := by
  cases fuel with
  | zero => simp [loop_zero]
  | succ k =>
    rw [loop_succ]
    split <;> simp

/-- The list of rows written by the loop has at most `fuel + 1` entries. -/
theorem loop_length_le (cfg : Config) :
    ∀ fuel (cur : Row) (ev : Events), (loop cfg fuel cur ev).1.length ≤ fuel + 1 := by
  intro fuel
  induction fuel with
  | zero => intro cur ev; simp [loop_zero]
  | succ k ih =>
    intro cur ev
    rw [loop_succ]
    split
    · simp
    · simpa using Nat.succ_le_succ (ih (nextRow cfg cur ev) (stepEvents cfg cur ev))

/-- For any positive amount of fuel the produced rows end with a finalized
row followed by the one row written after it. -/
theorem loop_ends_with_copy (cfg : Config) :
    ∀ fuel (cur : Row) (ev : Events), ∃ pre cur2 ev2,
      (loop cfg (fuel + 1) cur ev).1 =
        pre ++ [finRow cfg cur2, nextRow cfg cur2 ev2] := by
  intro fuel
  induction fuel with
  | zero =>
    intro cur ev
    refine ⟨[], cur, ev, ?_⟩
    rw [loop_succ]
    split <;> simp [loop_zero]
  | succ k ih =>
    intro cur ev
    by_cases hb : (stepEvents cfg cur ev).td.isSome
    · exact ⟨[], cur, ev, by rw [loop_succ, if_pos hb]; rfl⟩
    · obtain ⟨pre, cur2, ev2, hh⟩ := ih (nextRow cfg cur ev) (stepEvents cfg cur ev)
      refine ⟨finRow cfg cur :: pre, cur2, ev2, ?_⟩
      rw [loop_succ, if_neg hb]
      simp [hh]

theorem headD_mem {α : Type} (l : List α) (d : α) (h : l ≠ []) : l.headD d ∈ l := by
  cases l with
  | nil => exact absurd rfl h
  | cons a t => exact List.mem_cons_self a t

theorem getLastD_mem {α : Type} : ∀ (l : List α) (d : α), l ≠ [] → l.getLastD d ∈ l
  | [], _, h => absurd rfl h
  | [a], _, _ => by simp [List.getLastD]
  | a :: b :: t, d, _ => by
    rw [List.getLastD_cons]
    exact List.mem_cons_of_mem a (getLastD_mem (b :: t) a (by simp))

/-- Evaluation of `np.interp` stays nonnegative on a table of nonnegative values. -/
theorem npInterp_nonneg (x : ℚ) :
    ∀ (l : List (ℚ × ℚ)), (∀ p ∈ l, 0 ≤ p.2) → 0 ≤ npInterp x l
  | [], _ => le_refl 0
  | [p], h => h p (by simp)
  | p :: q :: t, h => by
    simp only [npInterp]
    split_ifs with h1 h2
    · exact h p (by simp)
    · have hp : 0 ≤ p.2 := h p (by simp)
      have hq : 0 ≤ q.2 := h q (by simp)
      have hpx : p.1 < x := not_le.mp h1
      have hpq : p.1 < q.1 := hpx.trans_le h2
      have hne : q.1 - p.1 ≠ 0 := sub_ne_zero.mpr (ne_of_gt hpq)
      have key : p.2 + (x - p.1) * (q.2 - p.2) / (q.1 - p.1) =
          ((q.1 - x) * p.2 + (x - p.1) * q.2) / (q.1 - p.1) := by
        field_simp
        ring
      rw [key]
      apply div_nonneg
      · have t1 : 0 ≤ (q.1 - x) * p.2 := mul_nonneg (by linarith) hp
        have t2 : 0 ≤ (x - p.1) * q.2 := mul_nonneg (by linarith) hq
        linarith
      · linarith
    · exact npInterp_nonneg x (q :: t) (fun r hr => h r (List.mem_cons_of_mem p hr))

/-- The mass-flow evaluator stays nonnegative on a table of nonnegative
rates. -/
theorem mdot_piecewise_linear_nonneg (t : ℚ) (curve : List (ℚ × ℚ))
    (h : ∀ p ∈ curve, 0 ≤ p.2) : 0 ≤ mdot_piecewise_linear t curve := by
  simp only [mdot_piecewise_linear]
  split_ifs with h1 h2 h3 h4
  · exact le_refl 0
  · have hne : curve ≠ [] := by
      intro h0
      rw [h0] at h1
      simp at h1
    exact h _ (headD_mem curve _ hne)
  · have hne : curve ≠ [] := by
      intro h0
      rw [h0] at h1
      simp at h1
    exact h _ (getLastD_mem curve _ hne)
  · exact le_refl 0
  · exact npInterp_nonneg t curve h

/-- The per-step mass-flow value is nonnegative for a nonnegative curve. -/
theorem mdotAt_nonneg (cfg : Config) (cur : Row)
    (h : ∀ p ∈ cfg.curve, 0 ≤ p.2) : 0 ≤ mdotAt cfg cur := by
  unfold mdotAt
  split
  · exact le_refl 0
  · exact mdot_piecewise_linear_nonneg _ _ h

theorem finRow_m (cfg : Config) (cur : Row) : (finRow cfg cur).m = cur.m := rfl

/-- The mass written into the next row never drops below the dry mass and,
for a nonnegative curve and step size, never grows. -/
theorem nextRow_m_bounds (cfg : Config) (cur : Row) (ev : Events)
    (hc : ∀ p ∈ cfg.curve, 0 ≤ p.2) (hdt : 0 ≤ cfg.dt)
    (hm : cfg.m_dry ≤ cur.m) :
    (nextRow cfg cur ev).m ≤ cur.m ∧ cfg.m_dry ≤ (nextRow cfg cur ev).m := by
  have hmd : 0 ≤ mdotAt cfg cur := mdotAt_nonneg cfg cur hc
  constructor
  · show max (mNew cfg cur) cfg.m_dry ≤ cur.m
    apply max_le _ hm
    unfold mNew
    nlinarith
  · exact le_max_right _ _

/-- The head of the rows written by the loop carries the entry state's mass. -/
theorem loop_head_m (cfg : Config) (fuel : Nat) (cur : Row) (ev : Events) :
    ∃ r, (loop cfg fuel cur ev).1.head? = some r ∧ r.m = cur.m := by
  cases fuel with
  | zero => exact ⟨cur, rfl, rfl⟩
  | succ k =>
    rw [loop_succ]
    by_cases hb : (stepEvents cfg cur ev).td.isSome
    · rw [if_pos hb]
      exact ⟨finRow cfg cur, rfl, rfl⟩
    · rw [if_neg hb]
      exact ⟨finRow cfg cur, rfl, rfl⟩

/-- Mass invariant of the loop: starting at or above the dry mass, every
written row stays at or above it and the sequence of masses never
increases. -/
theorem loop_mass (cfg : Config)
    (hc : ∀ p ∈ cfg.curve, 0 ≤ p.2) (hdt : 0 ≤ cfg.dt) :
    ∀ fuel (cur : Row) (ev : Events), cfg.m_dry ≤ cur.m →
      (∀ r ∈ (loop cfg fuel cur ev).1, cfg.m_dry ≤ r.m) ∧
      List.Chain' (fun r s => s.m ≤ r.m) (loop cfg fuel cur ev).1 := by
  intro fuel
  induction fuel with
  | zero =>
    intro cur ev hm
    constructor
    · intro r hr
      rw [loop_zero] at hr
      simp at hr
      rw [hr]
      exact hm
    · rw [loop_zero]
      exact List.chain'_singleton cur
  | succ k ih =>
    intro cur ev hm
    obtain ⟨hle, hge⟩ := nextRow_m_bounds cfg cur ev hc hdt hm
    rw [loop_succ]
    by_cases hb : (stepEvents cfg cur ev).td.isSome
    · rw [if_pos hb]
      constructor
      · intro r hr
        simp at hr
        rcases hr with hr | hr
        · rw [hr, finRow_m]; exact hm
        · rw [hr]; exact hge
      · refine List.chain'_cons.mpr ⟨?_, List.chain'_singleton _⟩
        rw [finRow_m]
        exact hle
    · rw [if_neg hb]
      obtain ⟨ihmem, ihchain⟩ := ih (nextRow cfg cur ev) (stepEvents cfg cur ev) hge
      constructor
      · intro r hr
        rcases List.mem_cons.mp hr with hr | hr
        · rw [hr, finRow_m]; exact hm
        · exact ihmem r hr
      · rw [List.chain'_cons']
        refine ⟨?_, ihchain⟩
        intro y hy
        obtain ⟨r0, hr0, hr0m⟩ := loop_head_m cfg k (nextRow cfg cur ev) (stepEvents cfg cur ev)
        rw [hr0] at hy
        simp at hy
        rw [← hy]
        show r0.m ≤ (finRow cfg cur).m
        rw [finRow_m, hr0m]
        exact hle

/-- When the mass-crossing trigger holds and no burnout is recorded yet,
the step's event pass records the mass-interpolated burnout. -/
theorem stepEvents_meco_mass (cfg : Config) (cur : Row) (ev : Events)
    (h1 : ev.meco = none) (h2 : cfg.m_dry + eps < cur.m)
    (h3 : mNew cfg cur ≤ cfg.m_dry + eps) :
    (stepEvents cfg cur ev).meco = some (mecoMassRec cfg cur) := by
  unfold stepEvents
  rw [evD_meco, evC_meco]
  exact evB_meco_of_some _ _ _ _ (by unfold evA; rw [if_pos ⟨h1, h2, h3⟩])

/-- When the velocity crosses zero downward and no apogee is recorded yet,
the step's event pass records the interpolated apogee. -/
theorem stepEvents_apo_cross (cfg : Config) (cur : Row) (ev : Events)
    (h1 : ev.apo = none) (h2 : 0 < cur.V) (h3 : vNew cfg cur ≤ 0) :
    (stepEvents cfg cur ev).apo = some (apoRec cfg cur) := by
  unfold stepEvents
  rw [evD_apo]
  unfold evC
  rw [if_pos ⟨by rw [evB_apo, evA_apo]; exact h1, h2, h3⟩]

/-- When the altitude crosses zero downward and no touchdown is recorded
yet, the step's event pass records the interpolated touchdown. -/
theorem stepEvents_td_cross (cfg : Config) (cur : Row) (ev : Events)
    (h1 : ev.td = none) (h2 : 0 < cur.h) (h3 : hNew cfg cur ≤ 0) :
    (stepEvents cfg cur ev).td = some (cur.t + thetaTd cfg cur * cfg.dt) := by
  unfold stepEvents evD
  rw [if_pos ⟨by rw [evC_td, evB_td, evA_td]; exact h1, h2, h3⟩]

/-! ## Claim theorems -/

/-- C7: the thrust-direction sign used in the per-step acceleration
`a = -g - D/m + sgnV * Th/m` is `+1` whenever `|V| < 1e-12` (never `0`),
and is `V/|V|` otherwise; and outside the ground guard the stored
acceleration is exactly that formula. -/
theorem C7_sign_tiebreak :
    (∀ v : ℚ, (|v| < eps → sgnV v = 1) ∧ (eps ≤ |v| → sgnV v = v / |v|) ∧
      (sgnV v = 1 ∨ sgnV v = -1)) ∧
    ∀ (cfg : Config) (cur : Row), ¬groundedAt cfg cur →
      accelAt cfg cur =
        -cfg.g - dragAt cfg cur / cur.m + sgnV cur.V * thrustAt cfg cur / cur.m := by
  constructor
  · intro v
    refine ⟨fun h => by rw [sgnV, if_pos h], fun h => by rw [sgnV, if_neg (not_lt.mpr h)], ?_⟩
    by_cases h : |v| < eps
    · exact Or.inl (by rw [sgnV, if_pos h])
    · rw [sgnV, if_neg h]
      push_neg at h
      have hv : v ≠ 0 := by
        intro h0
        rw [h0, abs_zero] at h
        exact absurd (lt_of_lt_of_le eps_pos h) (lt_irrefl 0)
      rcases lt_or_gt_of_ne hv with hneg | hpos
      · right; rw [abs_of_neg hneg, div_neg, div_self hv]
      · left; rw [abs_of_pos hpos, div_self hv]
  · intro cfg cur h
    rw [accelAt, if_neg h, accel0]

/-- C7 witness: both branches of the sign rule at concrete velocities. -/
theorem C7_sign_tiebreak_witness :
    (|(0 : ℚ)| < eps ∧ sgnV 0 = 1) ∧
    (eps ≤ |(-2 : ℚ)| ∧ sgnV (-2) = (-2) / |(-2 : ℚ)|) := by
  constructor
  · exact ⟨by norm_num [eps], (C7_sign_tiebreak.1 0).1 (by norm_num [eps])⟩
  · exact ⟨by norm_num [eps], (C7_sign_tiebreak.1 (-2)).2.1 (by norm_num [eps])⟩

/-- C8: with a positive step size and maximum duration, the loop terminates
with a series of rows whose length (before and after trimming) never
exceeds the allocated capacity `ceil(tmax/dt) + 2`. -/
theorem C8_termination (cfg : Config) (_hdt : 0 < cfg.dt) (_htmax : 0 < cfg.tmax) :
    (simulateRows cfg).length ≤ nSteps cfg ∧
    (trimRows (simulateRows cfg)).length ≤ nSteps cfg ∧
    simulateRows cfg ≠ [] := by
  have hlen : (simulateRows cfg).length ≤ nSteps cfg := by
    have h := loop_length_le cfg (nSteps cfg - 1) (initRow cfg) ({} : Events)
    have h2 : nSteps cfg - 1 + 1 = nSteps cfg := by
      unfold nSteps; omega
    rw [h2] at h
    exact h
  refine ⟨hlen, ?_, loop_ne_nil cfg _ _ _⟩
  calc (trimRows (simulateRows cfg)).length
      ≤ (simulateRows cfg).length := by
        unfold trimRows; exact (List.length_take _ _).trans_le (min_le_right _ _)
    _ ≤ nSteps cfg := hlen

/-- A small valid configuration used to instantiate hypotheses of the
general theorems. -/
def cfgW : Config :=
  { dt := 1, tmax := 1, g := 10, rho := 0, Cd := 0, A := 0,
    m_dry := 1, m_prop := 1, ue := 0, curve := [] }

/-- C8 witness: the bounds hold on a concrete configuration. -/
theorem C8_termination_witness :
    (0 : ℚ) < cfgW.dt ∧ (0 : ℚ) < cfgW.tmax ∧
    (simulateRows cfgW).length ≤ nSteps cfgW := by
  refine ⟨by norm_num [cfgW], by norm_num [cfgW], ?_⟩
  exact (C8_termination cfgW (by norm_num [cfgW]) (by norm_num [cfgW])).1

/-- C9: the last stored row carries exact copies of the previous row's
thrust, drag, weight and acceleration (the force model is never evaluated
at the final state); only time, altitude, velocity and mass are advanced. -/
theorem C9_final_row_copies (cfg : Config) :
    ∃ pre r last, simulateRows cfg = pre ++ [r, last] ∧
      last.Th = r.Th ∧ last.D = r.D ∧ last.W = r.W ∧ last.a = r.a ∧
      last.t = r.t + cfg.dt := by
  have h2 : nSteps cfg - 1 = (⌈cfg.tmax / cfg.dt⌉.toNat + 1) := by
    unfold nSteps; omega
  obtain ⟨pre, cur2, ev2, hh⟩ :=
    loop_ends_with_copy cfg (⌈cfg.tmax / cfg.dt⌉.toNat) (initRow cfg) ({} : Events)
  refine ⟨pre, finRow cfg cur2, nextRow cfg cur2 ev2, ?_, rfl, rfl, rfl, rfl, rfl⟩
  unfold simulateRows simulateRun
  rw [h2]
  exact hh

/-- C10: the trimmed series is never empty and keeps index 0, so the four
maxima/terminal metrics are always populated, while the three event fields
are exactly the (optional) event records of the run. -/
theorem C10_metrics_total (cfg : Config) :
    trimRows (simulateRows cfg) ≠ [] ∧
    (trimRows (simulateRows cfg)).head? = (simulateRows cfg).head? ∧
    (simulate cfg).h_max.isSome = true ∧
    (simulate cfg).V_max.isSome = true ∧
    (simulate cfg).a_max.isSome = true ∧
    (simulate cfg).t_end.isSome = true ∧
    (simulate cfg).meco = (simEvents cfg).meco ∧
    (simulate cfg).apo = (simEvents cfg).apo ∧
    (simulate cfg).td = (simEvents cfg).td := by
  have hne := loop_ne_nil cfg (nSteps cfg - 1) (initRow cfg) ({} : Events)
  obtain ⟨a, rest, hcons⟩ := List.exists_cons_of_ne_nil hne
  have hrows : simulateRows cfg = a :: rest := hcons
  have htrim : trimRows (simulateRows cfg) =
      a :: rest.take (lastPos (simulateRows cfg)) := by
    rw [trimRows, hrows, List.take_succ_cons]
  refine ⟨by rw [htrim]; simp, by rw [htrim, hrows]; rfl, ?_, ?_, ?_, ?_, rfl, rfl, rfl⟩
  · show ((trimRows (simulateRows cfg)).map Row.h).max?.isSome = true
    exact max?_isSome_of_ne_nil _ (by rw [htrim]; simp)
  · show ((trimRows (simulateRows cfg)).map Row.V).max?.isSome = true
    exact max?_isSome_of_ne_nil _ (by rw [htrim]; simp)
  · show ((trimRows (simulateRows cfg)).map Row.a).max?.isSome = true
    exact max?_isSome_of_ne_nil _ (by rw [htrim]; simp)
  · show (((trimRows (simulateRows cfg)).getLast?).map Row.t).isSome = true
    rw [Option.isSome_map']
    rw [List.getLast?_isSome, htrim]
    simp

/-- On a strictly time-sorted table the head's time bounds every member's
time from below. -/
theorem headD_le_of_mem (l : List (ℚ × ℚ))
    (hs : List.Pairwise (fun p q => p.1 < q.1) l) (x : ℚ × ℚ) (hx : x ∈ l) :
    (l.headD (0, 0)).1 ≤ x.1 := by
  cases l with
  | nil => cases hx
  | cons a tl =>
    rcases List.mem_cons.mp hx with h | h
    · rw [h]
      simp
    · exact le_of_lt ((List.pairwise_cons.mp hs).1 x h)

/-- Evaluation of `np.interp` on a strictly sorted table with a bracketed query: the value
is the linear blend of the bracketing pair. -/
theorem npInterp_bracket (x : ℚ) :
    ∀ (l1 : List (ℚ × ℚ)) (p q : ℚ × ℚ) (l2 : List (ℚ × ℚ)),
      List.Pairwise (fun r s => r.1 < s.1) (l1 ++ p :: q :: l2) →
      p.1 < x → x ≤ q.1 →
      npInterp x (l1 ++ p :: q :: l2) =
        p.2 + (x - p.1) * (q.2 - p.2) / (q.1 - p.1)
  | [], p, q, l2, _, h1, h2 => by
    simp only [List.nil_append, npInterp]
    rw [if_neg (not_le.mpr h1), if_pos h2]
  | a :: l1, p, q, l2, hs, h1, h2 => by
    rw [List.cons_append] at hs
    have hs' : List.Pairwise (fun r s => r.1 < s.1) (l1 ++ p :: q :: l2) :=
      (List.pairwise_cons.mp hs).2
    have hax : a.1 < x := by
      have : a.1 < p.1 := (List.pairwise_cons.mp hs).1 p (by simp)
      linarith
    have ih := npInterp_bracket x l1 p q l2 hs' h1 h2
    cases l1 with
    | nil =>
      simp only [List.nil_append] at ih
      simp only [List.cons_append, List.nil_append, npInterp]
      rw [if_neg (not_le.mpr hax), if_neg (not_le.mpr h1)]
      exact ih
    | cons b l1' =>
      have hbx : b.1 < x := by
        have hbp : b.1 < p.1 := (List.pairwise_cons.mp hs').1 p (by simp)
        linarith
      simp only [List.cons_append, npInterp]
      rw [if_neg (not_le.mpr hax), if_neg (not_le.mpr hbx)]
      rw [List.cons_append] at ih
      exact ih

/-- C1 (amended): with at least two samples, strictly ascending times and a
support span of at least `1e-12`, the evaluator returns: the exact first
rate for queries at or before the first time and within `1e-12` of it; the
exact last rate for queries at or beyond the last time and within `1e-12`
of it; `0` outside the span beyond that tolerance; the linear blend of the
bracketing samples strictly inside the span; and `0` for any curve with
fewer than two samples.  (The boundary-exactness rule does not apply to
queries strictly inside the span, even within `1e-12` of an end.) -/
theorem C1_mdot_cases (t : ℚ) (curve : List (ℚ × ℚ))
    (hlen : 2 ≤ curve.length)
    (hsort : List.Pairwise (fun p q => p.1 < q.1) curve)
    (hspan : eps ≤ (curve.getLastD (0, 0)).1 - (curve.headD (0, 0)).1) :
    (∀ c : List (ℚ × ℚ), c.length < 2 → mdot_piecewise_linear t c = 0) ∧
    (t ≤ (curve.headD (0, 0)).1 → |t - (curve.headD (0, 0)).1| < eps →
      mdot_piecewise_linear t curve = (curve.headD (0, 0)).2) ∧
    ((curve.getLastD (0, 0)).1 ≤ t → |t - (curve.getLastD (0, 0)).1| < eps →
      mdot_piecewise_linear t curve = (curve.getLastD (0, 0)).2) ∧
    (t ≤ (curve.headD (0, 0)).1 → eps ≤ |t - (curve.headD (0, 0)).1| →
      mdot_piecewise_linear t curve = 0) ∧
    ((curve.getLastD (0, 0)).1 ≤ t → eps ≤ |t - (curve.getLastD (0, 0)).1| →
      mdot_piecewise_linear t curve = 0) ∧
    (∀ (l1 l2 : List (ℚ × ℚ)) (p q : ℚ × ℚ), curve = l1 ++ p :: q :: l2 →
      p.1 < t → t ≤ q.1 → t < (curve.getLastD (0, 0)).1 →
      mdot_piecewise_linear t curve =
        p.2 + (t - p.1) * (q.2 - p.2) / (q.1 - p.1)) := by
  have hts : (curve.headD (0, 0)).1 < (curve.getLastD (0, 0)).1 := by
    linarith [eps_pos]
  have hnl : ¬curve.length < 2 := by omega
  refine ⟨?_, ?_, ?_, ?_, ?_, ?_⟩
  · intro c hc
    simp only [mdot_piecewise_linear]
    rw [if_pos hc]
  · intro h1 h2
    simp only [mdot_piecewise_linear]
    rw [if_neg hnl, if_pos (Or.inl h1), if_pos h2]
  · intro h1 h2
    have hno : ¬|t - (curve.headD (0, 0)).1| < eps := by
      rw [abs_of_nonneg (by linarith)]
      push_neg
      linarith
    simp only [mdot_piecewise_linear]
    rw [if_neg hnl, if_pos (Or.inr h1), if_neg hno, if_pos h2]
  · intro h1 h2
    have hno : ¬|t - (curve.getLastD (0, 0)).1| < eps := by
      rw [abs_of_nonpos (by linarith)]
      rw [abs_of_nonpos (by linarith)] at h2
      push_neg
      linarith
    simp only [mdot_piecewise_linear]
    rw [if_neg hnl, if_pos (Or.inl h1), if_neg (not_lt.mpr h2), if_neg hno]
  · intro h1 h2
    have hno : ¬|t - (curve.headD (0, 0)).1| < eps := by
      rw [abs_of_nonneg (by linarith)]
      push_neg
      linarith
    simp only [mdot_piecewise_linear]
    rw [if_neg hnl, if_pos (Or.inr h1), if_neg hno, if_neg (not_lt.mpr h2)]
  · intro l1 l2 p q hcurve hpt htq htl
    have hp_mem : p ∈ curve := by
      rw [hcurve]
      simp
    have ht0t : (curve.headD (0, 0)).1 < t :=
      lt_of_le_of_lt (headD_le_of_mem curve hsort p hp_mem) hpt
    simp only [mdot_piecewise_linear]
    rw [if_neg hnl, if_neg (by push_neg; exact ⟨ht0t, htl⟩)]
    rw [hcurve]
    exact npInterp_bracket t l1 p q l2 (hcurve ▸ hsort) hpt htq

/-- The two-sample test curve `[(0, 0), (1, 5)]`. -/
def c1curve : List (ℚ × ℚ) := [(0, 0), (1, 5)]

/-- C1 witness: on the curve `[(0, 0), (1, 5)]` the interior clause gives
the linear blend at `t = 1/2`. -/
theorem C1_mdot_cases_witness :
    (2 ≤ c1curve.length ∧
      List.Pairwise (fun p q => p.1 < q.1) c1curve ∧
      eps ≤ (c1curve.getLastD (0, 0)).1 - (c1curve.headD (0, 0)).1) ∧
    mdot_piecewise_linear (1/2) c1curve =
      (0 : ℚ) + (1/2 - 0) * (5 - 0) / (1 - 0) := by
  have hlen : 2 ≤ c1curve.length := by norm_num [c1curve]
  have hsort : List.Pairwise (fun p q => p.1 < q.1) c1curve := by
    norm_num [c1curve, List.pairwise_cons]
  have hspan : eps ≤ (c1curve.getLastD (0, 0)).1 - (c1curve.headD (0, 0)).1 := by
    norm_num [c1curve, eps]
  refine ⟨⟨hlen, hsort, hspan⟩, ?_⟩
  exact (C1_mdot_cases (1/2) c1curve hlen hsort hspan).2.2.2.2.2
    [] [] (0, 0) (1, 5) rfl (by norm_num) (by norm_num) (by norm_num [c1curve])

/-- C1 counterexample: for the curve `[(0, 0), (1, 5)]` and the query
`t = 5e-13`, the query is within `1e-12` of the first sample time but the
evaluator returns the interior interpolation `2.5e-12`, not the first
sample's rate `0`: boundary exactness does not apply strictly inside the
span. -/
theorem C1_mdot_cases_counterexample :
    |(1 / (2 * 10 ^ 12) : ℚ) - 0| < eps ∧
    mdot_piecewise_linear (1 / (2 * 10 ^ 12)) c1curve ≠ 0 := by
  constructor
  · rw [sub_zero, abs_of_pos (by norm_num)]
    norm_num [eps]
  · norm_num [mdot_piecewise_linear, npInterp, c1curve, eps]

/-- C5: for a run with a nonnegative mass-flow curve, nonnegative step size
and nonnegative propellant mass, the stored mass series (both as written and
after trimming) is monotonically non-increasing and never falls below the
dry mass. -/
theorem C5_mass_monotone (cfg : Config)
    (hc : ∀ p ∈ cfg.curve, 0 ≤ p.2) (hdt : 0 ≤ cfg.dt) (hprop : 0 ≤ cfg.m_prop) :
    (List.Chain' (fun r s => s.m ≤ r.m) (simulateRows cfg) ∧
      ∀ r ∈ simulateRows cfg, cfg.m_dry ≤ r.m) ∧
    (List.Chain' (fun r s => s.m ≤ r.m) (trimRows (simulateRows cfg)) ∧
      ∀ r ∈ trimRows (simulateRows cfg), cfg.m_dry ≤ r.m) := by
  have hm0 : cfg.m_dry ≤ (initRow cfg).m := by
    show cfg.m_dry ≤ cfg.m_dry + cfg.m_prop
    linarith
  obtain ⟨hmem, hchain⟩ :=
    loop_mass cfg hc hdt (nSteps cfg - 1) (initRow cfg) ({} : Events) hm0
  exact ⟨⟨hchain, hmem⟩,
    ⟨hchain.take _, fun r hr => hmem r (List.take_subset _ _ hr)⟩⟩

/-- C5 witness: the mass invariant holds on a concrete configuration. -/
theorem C5_mass_monotone_witness :
    ((∀ p ∈ cfgW.curve, (0 : ℚ) ≤ p.2) ∧ (0 : ℚ) ≤ cfgW.dt ∧ (0 : ℚ) ≤ cfgW.m_prop) ∧
    List.Chain' (fun r s => s.m ≤ r.m) (simulateRows cfgW) ∧
    ∀ r ∈ simulateRows cfgW, cfgW.m_dry ≤ r.m := by
  have h1 : ∀ p ∈ cfgW.curve, (0 : ℚ) ≤ p.2 := by simp [cfgW]
  have h2 : (0 : ℚ) ≤ cfgW.dt := by norm_num [cfgW]
  have h3 : (0 : ℚ) ≤ cfgW.m_prop := by norm_num [cfgW]
  exact ⟨⟨h1, h2, h3⟩, (C5_mass_monotone cfgW h1 h2 h3).1⟩

/-- On a state resting on the ground at dry mass, an integration step leaves
everything at zero, the mass at the dry mass and the events untouched. -/
theorem restStep (cfg : Config) (cur : Row) (ev : Events)
    (hh : cur.h = 0) (hv : cur.V = 0) (hm : cur.m = cfg.m_dry)
    (hg : 0 ≤ cfg.g) (hmd : 0 ≤ cfg.m_dry) :
    stepEvents cfg cur ev = ev ∧
    ((nextRow cfg cur ev).h = 0 ∧ (nextRow cfg cur ev).V = 0 ∧
      (nextRow cfg cur ev).m = cfg.m_dry ∧ (nextRow cfg cur ev).a = 0) ∧
    ((finRow cfg cur).h = 0 ∧ (finRow cfg cur).V = 0 ∧ (finRow cfg cur).a = 0) := by
  have hmdot : mdotAt cfg cur = 0 := by
    rw [mdotAt, if_pos (by rw [hm]; linarith [eps_pos])]
  have hth : thrustAt cfg cur = 0 := by rw [thrustAt, hmdot, zero_mul]
  have hdr : dragAt cfg cur = 0 := by simp [dragAt, hv]
  have hgr : groundedAt cfg cur := by
    refine ⟨by rw [hh]; linarith [eps_pos], by rw [hv]; linarith [eps_pos], ?_⟩
    rw [hth, hdr, weightAt, hm]
    have := mul_nonneg hmd hg
    linarith
  have hacc : accelAt cfg cur = 0 := by rw [accelAt, if_pos hgr]
  have hhn : hNew cfg cur = 0 := by rw [hNew, if_pos hgr]
  have hvn : vNew cfg cur = 0 := by rw [vNew, if_pos hgr]
  have hmn : mNew cfg cur = cfg.m_dry := by rw [mNew, hmdot, hm]; ring
  have hevA : evA cfg cur ev = ev := by
    rw [evA, if_neg]
    rintro ⟨-, h2, -⟩
    rw [hm] at h2
    linarith [eps_pos]
  have hevB : evB cfg cur ev = ev := by
    rw [evB, if_neg]
    rintro ⟨-, h2, -⟩
    rw [hmdot] at h2
    exact absurd h2 (not_lt.mpr (le_of_lt eps_pos))
  have hevC : evC cfg cur ev = ev := by
    rw [evC, if_neg]
    rintro ⟨-, h2, -⟩
    rw [hv] at h2
    exact lt_irrefl 0 h2
  have hevD : evD cfg cur ev = ev := by
    rw [evD, if_neg]
    rintro ⟨-, h2, -⟩
    rw [hh] at h2
    exact lt_irrefl 0 h2
  have hse : stepEvents cfg cur ev = ev := by
    rw [stepEvents, hevA, hevB, hevC, hevD]
  have hout : hOut cfg cur ev = 0 := by
    rw [hOut]
    split
    · rfl
    · exact hhn
  refine ⟨hse, ⟨hout, hvn, ?_, hacc⟩, ⟨hh, hv, hacc⟩⟩
  show max (mNew cfg cur) cfg.m_dry = cfg.m_dry
  rw [hmn, max_self]

/-- The loop started on the pad at dry mass keeps every written row at
zero altitude, velocity and acceleration and never records an event. -/
theorem loop_rest (cfg : Config) (hg : 0 ≤ cfg.g) (hmd : 0 ≤ cfg.m_dry) :
    ∀ fuel (cur : Row) (ev : Events),
      cur.h = 0 → cur.V = 0 → cur.m = cfg.m_dry → cur.a = 0 → ev.td = none →
      (∀ r ∈ (loop cfg fuel cur ev).1, r.h = 0 ∧ r.V = 0 ∧ r.a = 0) ∧
      (loop cfg fuel cur ev).2 = ev := by
  intro fuel
  induction fuel with
  | zero =>
    intro cur ev hh hv hm ha htd
    constructor
    · intro r hr
      rw [loop_zero] at hr
      simp at hr
      rw [hr]
      exact ⟨hh, hv, ha⟩
    · rw [loop_zero]
  | succ k ih =>
    intro cur ev hh hv hm ha htd
    obtain ⟨hse, ⟨hnh, hnv, hnm, hna⟩, ⟨hfh, hfv, hfa⟩⟩ :=
      restStep cfg cur ev hh hv hm hg hmd
    have hb : ¬(stepEvents cfg cur ev).td.isSome = true := by
      rw [hse, htd]
      simp
    rw [loop_succ, if_neg hb]
    obtain ⟨ihmem, ihev⟩ :=
      ih (nextRow cfg cur ev) (stepEvents cfg cur ev) hnh hnv hnm hna
        (by rw [hse]; exact htd)
    constructor
    · intro r hr
      rcases List.mem_cons.mp hr with hr | hr
      · rw [hr]
        exact ⟨hfh, hfv, hfa⟩
      · exact ihmem r hr
    · show (loop cfg k (nextRow cfg cur ev) (stepEvents cfg cur ev)).2 = ev
      rw [ihev, hse]

/-- C6: with zero propellant (and nonnegative gravity and dry mass) from
rest on the ground, every stored row keeps altitude, velocity and
acceleration exactly 0 and no burnout, apogee or touchdown is ever
recorded. -/
theorem C6_ground_clamp_idempotence (cfg : Config)
    (hprop : cfg.m_prop = 0) (hg : 0 ≤ cfg.g) (hmd : 0 ≤ cfg.m_dry) :
    (∀ r ∈ simulateRows cfg, r.h = 0 ∧ r.V = 0 ∧ r.a = 0) ∧
    simEvents cfg = ({} : Events) := by
  have hm : (initRow cfg).m = cfg.m_dry := by
    show cfg.m_dry + cfg.m_prop = cfg.m_dry
    rw [hprop, add_zero]
  exact loop_rest cfg hg hmd (nSteps cfg - 1) (initRow cfg) ({} : Events)
    rfl rfl hm rfl rfl

/-- The configuration of the resting-on-the-pad scenario: no propellant. -/
def cfgC6 : Config :=
  { dt := 1, tmax := 1, g := 10, rho := 0, Cd := 0, A := 0,
    m_dry := 1, m_prop := 0, ue := 0, curve := [] }

/-- C6 witness: on the concrete propellant-less configuration the rows stay
at zero and no events fire. -/
theorem C6_ground_clamp_idempotence_witness :
    (cfgC6.m_prop = 0 ∧ (0 : ℚ) ≤ cfgC6.g ∧ (0 : ℚ) ≤ cfgC6.m_dry) ∧
    (∀ r ∈ simulateRows cfgC6, r.h = 0 ∧ r.V = 0 ∧ r.a = 0) ∧
    simEvents cfgC6 = ({} : Events) := by
  have h1 : cfgC6.m_prop = 0 := rfl
  have h2 : (0 : ℚ) ≤ cfgC6.g := by norm_num [cfgC6]
  have h3 : (0 : ℚ) ≤ cfgC6.m_dry := by norm_num [cfgC6]
  exact ⟨⟨h1, h2, h3⟩, C6_ground_clamp_idempotence cfgC6 h1 h2 h3⟩

/-- C2 (amended): in any step whose start mass exceeds `m_dry + 1e-12` while
the unclamped new mass drops to at most `m_dry + 1e-12`, and burnout is not
yet recorded, burnout is recorded with
`θ = (m - m_dry) / ((m - m_new) + 1e-12)` (the `1e-12` is the zero-denominator
guard) and values `t + θ·dt` and the `θ`-blends of altitude and velocity;
and once recorded, the record is never changed by a later step. -/
theorem C2_burnout_mass_interpolation :
    (∀ (cfg : Config) (cur : Row) (ev : Events),
      ev.meco = none → cfg.m_dry + eps < cur.m → mNew cfg cur ≤ cfg.m_dry + eps →
      (stepEvents cfg cur ev).meco =
        some (cur.t + thetaMeco cfg cur * cfg.dt,
              cur.h + thetaMeco cfg cur * (hNew cfg cur - cur.h),
              cur.V + thetaMeco cfg cur * (vNew cfg cur - cur.V))) ∧
    (∀ (cfg : Config) (cur : Row) (ev : Events) (x : ℚ × ℚ × ℚ),
      ev.meco = some x → (stepEvents cfg cur ev).meco = some x) := by
  constructor
  · intro cfg cur ev h1 h2 h3
    exact stepEvents_meco_mass cfg cur ev h1 h2 h3
  · intro cfg cur ev x h
    unfold stepEvents
    rw [evD_meco, evC_meco]
    exact evB_meco_of_some _ _ _ _ (evA_meco_of_some _ _ _ _ h)

/-- The configuration of the burnout test scenario: step size 1, dry mass 5,
constant mass-flow rate 2, initial mass 10. -/
def cfgC2 : Config :=
  { dt := 1, tmax := 3, g := 0, rho := 0, Cd := 0, A := 0,
    m_dry := 5, m_prop := 5, ue := 0, curve := [(0, 2), (100, 2)] }

/-- The state row at `t = 2` of the burnout test scenario (mass 6). -/
def rowC2 : Row := { t := 2, h := 0, V := 0, m := 6, a := 0, Th := 0, D := 0, W := 0 }

/-- C2 witness: the burnout recording rule applied at the step from mass 6
to mass 4. -/
theorem C2_burnout_mass_interpolation_witness :
    (({} : Events).meco = none ∧ cfgC2.m_dry + eps < rowC2.m ∧
      mNew cfgC2 rowC2 ≤ cfgC2.m_dry + eps) ∧
    (stepEvents cfgC2 rowC2 {}).meco =
      some (rowC2.t + thetaMeco cfgC2 rowC2 * cfgC2.dt,
            rowC2.h + thetaMeco cfgC2 rowC2 * (hNew cfgC2 rowC2 - rowC2.h),
            rowC2.V + thetaMeco cfgC2 rowC2 * (vNew cfgC2 rowC2 - rowC2.V)) := by
  have h1 : ({} : Events).meco = none := rfl
  have h2 : cfgC2.m_dry + eps < rowC2.m := by norm_num [cfgC2, rowC2, eps]
  have h3 : mNew cfgC2 rowC2 ≤ cfgC2.m_dry + eps := by
    norm_num [mNew, mdotAt, mdot_piecewise_linear, npInterp, cfgC2, rowC2, eps]
  exact ⟨⟨h1, h2, h3⟩, C2_burnout_mass_interpolation.1 cfgC2 rowC2 {} h1 h2 h3⟩

/-- C2 counterexample: in the spec's own scenario (dt 1, dry mass 5, rate 2,
initial mass 10) the recorded burnout time is `2 + 1/(2 + 1e-12)`, which is
close to but not equal to the claimed `t_MECO = 2.5`, because of the
`1e-12` guard added to the denominator of `θ`. -/
theorem C2_burnout_mass_interpolation_counterexample :
    simEvents cfgC2 =
      { meco := some (2 + 1 / (2 + eps), 0, 0), apo := none, td := none } ∧
    (2 : ℚ) + 1 / (2 + eps) ≠ 5 / 2 := by
  constructor
  · have hn : nSteps cfgC2 = 5 := by
      norm_num [nSteps, cfgC2]
      rfl
    norm_num [simEvents, simulateRun, hn, loop, initRow, stepEvents, evA, evB, evC,
      evD, nextRow, finRow, hOut, tdTrigger, thetaMeco, thetaApo, thetaTd,
      mecoMassRec, apoRec, hNew, vNew, mNew, mdotAt, thrustAt, dragAt, weightAt,
      accelAt, accel0, sgnV, groundedAt, mdot_piecewise_linear, npInterp, eps, cfgC2]
  · norm_num [eps]

/-- C3 (amended): in any step whose start velocity is positive while the new
velocity is at most zero, and apogee is not yet recorded, apogee is recorded
with `θ = V / (V - V_new + 1e-12)` (the `1e-12` is the zero-denominator
guard), time `t + θ·dt` and the `θ`-blend of altitude; once recorded, the
record is never changed by a later step. -/
theorem C3_apogee_interpolation :
    (∀ (cfg : Config) (cur : Row) (ev : Events),
      ev.apo = none → 0 < cur.V → vNew cfg cur ≤ 0 →
      (stepEvents cfg cur ev).apo =
        some (cur.t + thetaApo cfg cur * cfg.dt,
              cur.h + thetaApo cfg cur * (hNew cfg cur - cur.h))) ∧
    (∀ (cfg : Config) (cur : Row) (ev : Events) (x : ℚ × ℚ),
      ev.apo = some x → (stepEvents cfg cur ev).apo = some x) := by
  constructor
  · intro cfg cur ev h1 h2 h3
    exact stepEvents_apo_cross cfg cur ev h1 h2 h3
  · intro cfg cur ev x h
    unfold stepEvents
    rw [evD_apo]
    exact evC_apo_of_some _ _ _ _ (by rw [evB_apo, evA_apo]; exact h)

/-- Configuration of the apogee test scenario: `dt = 0.1`, gravity 30 and no
drag or thrust, so a start velocity of 2 ends the step at −1. -/
def cfgC3 : Config :=
  { dt := 1/10, tmax := 1, g := 30, rho := 0, Cd := 0, A := 0,
    m_dry := 1, m_prop := 0, ue := 0, curve := [] }

/-- The state row at `t = 5` of the apogee test scenario. -/
def rowC3 : Row := { t := 5, h := 100, V := 2, m := 1, a := 0, Th := 0, D := 0, W := 0 }

/-- C3 witness: the apogee recording rule applied at the step with velocity
2 at the start and −1 at the end. -/
theorem C3_apogee_interpolation_witness :
    (({} : Events).apo = none ∧ 0 < rowC3.V ∧ vNew cfgC3 rowC3 ≤ 0) ∧
    (stepEvents cfgC3 rowC3 {}).apo =
      some (rowC3.t + thetaApo cfgC3 rowC3 * cfgC3.dt,
            rowC3.h + thetaApo cfgC3 rowC3 * (hNew cfgC3 rowC3 - rowC3.h)) := by
  have h1 : ({} : Events).apo = none := rfl
  have h2 : 0 < rowC3.V := by norm_num [rowC3]
  have h3 : vNew cfgC3 rowC3 ≤ 0 := by
    norm_num [vNew, groundedAt, accel0, sgnV, thrustAt, dragAt, weightAt, mdotAt,
      mdot_piecewise_linear, cfgC3, rowC3, eps]
  exact ⟨⟨h1, h2, h3⟩, C3_apogee_interpolation.1 cfgC3 rowC3 {} h1 h2 h3⟩

/-- C3 counterexample: with velocity 2 at the step start and −1 at the step
end over `dt = 0.1` from `t = 5`, the recorded `θ` is `2/(3 + 1e-12)`, close
to but not equal to the claimed `θ = 2/3`: the recorded apogee time differs
from `5 + (2/3)·0.1`. -/
theorem C3_apogee_interpolation_counterexample :
    (stepEvents cfgC3 rowC3 {}).apo =
      some (5 + 2 / (3 + eps) * (1/10), 100 + 2 / (3 + eps) * (1/5)) ∧
    (5 : ℚ) + 2 / (3 + eps) * (1/10) ≠ 5 + 2/3 * (1/10) := by
  constructor
  · norm_num [stepEvents, evA, evB, evC, evD, tdTrigger, thetaApo, thetaTd,
      thetaMeco, mecoMassRec, apoRec, hNew, vNew, mNew, mdotAt, thrustAt, dragAt,
      weightAt, accel0, sgnV, groundedAt, mdot_piecewise_linear, npInterp, eps,
      cfgC3, rowC3]
  · norm_num [eps]

/-- C4 (amended): in any step whose start altitude is positive while the new
altitude is at most zero, with no touchdown recorded yet, touchdown is
recorded with `θ = h / (h - h_new + 1e-12)` (the `1e-12` is the
zero-denominator guard) and time `t + θ·dt`, the stored altitude for the
step is forced to exactly 0, and the loop stops immediately after the step
regardless of remaining fuel. -/
theorem C4_touchdown_interpolation :
    ∀ (cfg : Config) (cur : Row) (ev : Events),
      ev.td = none → 0 < cur.h → hNew cfg cur ≤ 0 →
      (stepEvents cfg cur ev).td = some (cur.t + thetaTd cfg cur * cfg.dt) ∧
      (nextRow cfg cur ev).h = 0 ∧
      ∀ fuel, loop cfg (fuel + 1) cur ev =
        ([finRow cfg cur, nextRow cfg cur ev], stepEvents cfg cur ev) := by
  intro cfg cur ev h1 h2 h3
  have htd := stepEvents_td_cross cfg cur ev h1 h2 h3
  refine ⟨htd, ?_, ?_⟩
  · show hOut cfg cur ev = 0
    unfold hOut
    rw [if_pos ⟨by rw [evC_td, evB_td, evA_td]; exact h1, h2, h3⟩]
  · intro fuel
    rw [loop_succ, if_pos (by rw [htd]; rfl)]

/-- Configuration of the touchdown test scenario: `dt = 0.1`, no forces. -/
def cfgC4 : Config :=
  { dt := 1/10, tmax := 1, g := 0, rho := 0, Cd := 0, A := 0,
    m_dry := 1, m_prop := 0, ue := 0, curve := [] }

/-- The state row at `t = 10` of the touchdown test scenario: altitude 3,
velocity −40, so the step ends at altitude −1. -/
def rowC4 : Row := { t := 10, h := 3, V := -40, m := 1, a := 0, Th := 0, D := 0, W := 0 }

/-- C4 witness: the touchdown recording rule applied at the step with
altitude 3 at the start and −1 at the end. -/
theorem C4_touchdown_interpolation_witness :
    (({} : Events).td = none ∧ 0 < rowC4.h ∧ hNew cfgC4 rowC4 ≤ 0) ∧
    (stepEvents cfgC4 rowC4 {}).td =
      some (rowC4.t + thetaTd cfgC4 rowC4 * cfgC4.dt) ∧
    (nextRow cfgC4 rowC4 {}).h = 0 ∧
    loop cfgC4 1 rowC4 {} =
      ([finRow cfgC4 rowC4, nextRow cfgC4 rowC4 {}], stepEvents cfgC4 rowC4 {}) := by
  have h1 : ({} : Events).td = none := rfl
  have h2 : (0 : ℚ) < rowC4.h := by norm_num [rowC4]
  have h3 : hNew cfgC4 rowC4 ≤ 0 := by
    norm_num [hNew, groundedAt, thrustAt, dragAt, weightAt, mdotAt,
      mdot_piecewise_linear, cfgC4, rowC4, eps]
  have h := C4_touchdown_interpolation cfgC4 rowC4 {} h1 h2 h3
  exact ⟨⟨h1, h2, h3⟩, h.1, h.2.1, h.2.2 0⟩

/-- C4 counterexample: with altitude 3 at the step start and −1 at the step
end over `dt = 0.1` from `t = 10`, the recorded touchdown time is
`10 + (3/(4 + 1e-12))·0.1`, close to but not equal to the claimed
`t_touchdown = 10.075`, because of the `1e-12` guard in the denominator. -/
theorem C4_touchdown_interpolation_counterexample :
    (stepEvents cfgC4 rowC4 {}).td = some (10 + 3 / (4 + eps) * (1/10)) ∧
    (10 : ℚ) + 3 / (4 + eps) * (1/10) ≠ 403 / 40 := by
  constructor
  · norm_num [stepEvents, evA, evB, evC, evD, tdTrigger, thetaTd, thetaApo,
      thetaMeco, mecoMassRec, apoRec, hNew, vNew, mNew, mdotAt, thrustAt, dragAt,
      weightAt, accel0, sgnV, groundedAt, mdot_piecewise_linear, npInterp, eps,
      cfgC4, rowC4]
  · norm_num [eps]

end RocketSim
